import Mathlib

/-!
Shallow embedding of the shipyard naming/addressing and loggable-resource
code: `ValidateName`, `ReplaceNonURIChars`, `FQDN` (pkg/utils) and
`getLoggable` (cmd/log.go).  Strings are modelled as `List Char`
(the code only deals with ASCII identifiers, for which Go byte strings
and character lists agree).
-/

namespace Shipyard

/-- Characters accepted by `ValidateName`'s regex `^[a-zA-Z0-9\-_]+$`. -/
def validNameChar (c : Char) : Bool :=
  c.isAlpha || c.isDigit || c == '-' || c == '_'

/-- Characters NOT replaced by `ReplaceNonURIChars`, i.e. the complement of
the regex `[^a-zA-Z0-9\-\.]+`. -/
def uriChar (c : Char) : Bool :=
  c.isAlpha || c.isDigit || c == '-' || c == '.'

/-- The two sentinel errors of pkg/utils. -/
inductive NameError where
  | exceedsMaxLength            -- NameExceedsMaxLengthError
  | containsInvalidCharacters   -- NameContainsInvalidCharactersError
  deriving DecidableEq, Repr

/-- Embedding of `ValidateName`: length check first (max 128), then the
regex `^[a-zA-Z0-9\-_]+$` (nonempty, all characters valid). -/
def validateName (name : List Char) : Except NameError Bool :=
  if 128 < name.length then
    .error .exceedsMaxLength
  else if !name.isEmpty && name.all validNameChar then
    .ok true
  else
    .error .containsInvalidCharacters

/-- Helper for `replaceNonURIChars`: the Boolean records whether the
previous character was part of a run being replaced, so that each maximal
run of non-URI characters contributes a single dash, as
`regexp.ReplaceAllString` does for the pattern `[^a-zA-Z0-9\-\.]+`. -/
def replaceAux : Bool → List Char → List Char
  | _, [] => []
  | inRun, c :: cs =>
    if uriChar c then c :: replaceAux false cs
    else if inRun then replaceAux true cs
    else '-' :: replaceAux true cs

/-- Embedding of `ReplaceNonURIChars`: every maximal run of characters
outside `[a-zA-Z0-9\-\.]` is replaced by a single dash. -/
def replaceNonURIChars (s : List Char) : List Char :=
  replaceAux false s

/-- Embedding of `FQDN`: sanitized name, dot, type name, fixed suffix
".shipyard.run". -/
def fqdn (name typeName : List Char) : List Char :=
  replaceNonURIChars name ++ '.' :: typeName ++ ".shipyard.run".toList

/-- The resource type switch of `getLoggable` together with the remaining
members of the enumeration (`network`, `exec_local`), which reach the
switch's implicit default. -/
inductive ResourceType where
  | network | container | sidecar | containerIngress | k8sCluster
  | k8sIngress | nomadCluster | nomadIngress | execLocal | imageCache
  deriving DecidableEq, Repr

/-- Modelled from the spec: the string value of each member of the closed
type enumeration `{network, container, sidecar, container_ingress,
k8s_cluster, k8s_ingress, nomad_cluster, nomad_ingress, exec_local,
image_cache}` (the `config.Type...` constants live in pkg/config, outside
the provided sources; the exec_local HCL fixtures in the sources confirm
the underscore convention). -/
def typeName : ResourceType → List Char
  | .network => "network".toList
  | .container => "container".toList
  | .sidecar => "sidecar".toList
  | .containerIngress => "container_ingress".toList
  | .k8sCluster => "k8s_cluster".toList
  | .k8sIngress => "k8s_ingress".toList
  | .nomadCluster => "nomad_cluster".toList
  | .nomadIngress => "nomad_ingress".toList
  | .execLocal => "exec_local".toList
  | .imageCache => "image_cache".toList

/-- The fields of `r.Info()` consulted by `getLoggable`, plus the
`ClientNodes` field of `config.NomadCluster`. -/
structure ResourceInfo where
  name : List Char
  rtype : ResourceType
  disabled : Bool
  clientNodes : Nat
  deriving DecidableEq, Repr

/-- The handles one resource contributes inside `getLoggable`'s loop:
the body of the `switch r.Info().Type` statement. -/
def loggableOf (r : ResourceInfo) : List (List Char) :=
  match r.rtype with
  | .container =>
    if r.disabled then [] else [fqdn r.name (typeName .container)]
  | .k8sCluster =>
    if r.disabled then []
    else ["server.".toList ++ fqdn r.name (typeName .k8sCluster)]
  | .nomadCluster =>
    if r.disabled then []
    else
      ("server.".toList ++ fqdn r.name (typeName .nomadCluster)) ::
        (List.range r.clientNodes).map (fun n =>
          (Nat.toDigits 10 (n + 1)) ++ ".client.".toList
            ++ fqdn r.name (typeName .nomadCluster))
  | .sidecar =>
    if r.disabled then [] else [fqdn r.name (typeName .sidecar)]
  | .k8sIngress =>
    if r.disabled then [] else [fqdn r.name (typeName .k8sIngress)]
  | .nomadIngress =>
    if r.disabled then [] else [fqdn r.name (typeName .nomadIngress)]
  | .containerIngress =>
    if r.disabled then [] else [fqdn r.name (typeName .containerIngress)]
  | .imageCache => [fqdn r.name (typeName .imageCache)]
  | _ => []

/-- Embedding of `getLoggable`'s accumulation loop over `c.Resources`
(`loggable := append(loggable, ...)` per resource, in order). -/
def getLoggable (rs : List ResourceInfo) : List (List Char) :=
  rs.foldl (fun acc r => acc ++ loggableOf r) []

/-- The status enumeration of the resource model. -/
inductive Status where
  | pendingCreation | created | disabled | failed | pendingDestroy | destroyed
  deriving DecidableEq, Repr

/-- A freshly constructed resource: its record, its initial status, and the
number of provider invocations performed while constructing it. -/
structure ConstructedResource where
  info : ResourceInfo
  status : Status
  providerCalls : Nat
  deriving DecidableEq, Repr

/-- Modelled from the spec: construction of a resource from a declaration.
The pkg/config loading path (`CreateConfigFromStrings` and the per-type
constructors) is outside the provided sources; only its tests are in
src/pkg/config/exec_local_test.go.  Per the spec, a declaration enters the
graph with status `PendingCreation`, or `Disabled` when declared with
`disabled = true`, and construction performs no provider invocation. -/
def newResource (name : List Char) (rtype : ResourceType) (disabledFlag : Bool)
    (clientNodes : Nat) : ConstructedResource :=
  { info := ⟨name, rtype, disabledFlag, clientNodes⟩
    status := if disabledFlag then Status.disabled else Status.pendingCreation
    providerCalls := 0 }

/-- Sanitization as the sentence of C4 reads it: each single character
outside `[A-Za-z0-9.-]` is replaced by one dash. -/
def replacePerChar (s : List Char) : List Char :=
  s.map (fun c => if uriChar c then c else '-')

/-- Sanitization as the amended C4 reads: each maximal run of characters
outside `[A-Za-z0-9.-]` is replaced by a single dash.  Written directly
from that sentence (skip the whole run, emit one dash), independently of
the accumulator formulation `replaceAux`. -/
def collapseRuns : List Char → List Char
  | [] => []
  | c :: cs =>
    if uriChar c then c :: collapseRuns cs
    else '-' :: collapseRuns (cs.dropWhile (fun x => !uriChar x))
termination_by s => s.length
decreasing_by
  · simp only [List.length_cons]
    exact Nat.lt_succ_self _
  · simp only [List.length_cons]
    have hle : ∀ (p : Char → Bool) (l : List Char),
        (List.dropWhile p l).length ≤ l.length := by
      intro p l
      induction l with
      | nil => exact Nat.le_refl 0
      | cons x xs ih =>
        by_cases hx : p x
        · simp only [List.dropWhile, hx]
          exact Nat.le_succ_of_le ih
        · simp [List.dropWhile, hx]
    exact Nat.lt_succ_of_le (hle _ cs)

/-- Characters the amended C5 allows in a handle: `[A-Za-z0-9.-]` plus the
underscore that the type names carry. -/
def dnsLikeChar (c : Char) : Bool :=
  uriChar c || c == '_'

example : validateName "valid-name_1".toList = .ok true := by rfl
example : replaceNonURIChars "a__b".toList = "a-b".toList := by rfl
example : fqdn "a_b".toList "container".toList
    = "a-b.container.shipyard.run".toList := by rfl
example :
    getLoggable [⟨"db".toList, .nomadCluster, false, 2⟩]
      = ["server.db.nomad_cluster.shipyard.run".toList,
         "1.client.db.nomad_cluster.shipyard.run".toList,
         "2.client.db.nomad_cluster.shipyard.run".toList] := by rfl
example :
    getLoggable [⟨"c".toList, .imageCache, true, 0⟩]
      = ["c.image_cache.shipyard.run".toList] := by rfl

/-- Length bound for `dropWhile`, used for termination of the equivalence
proof below. -/
theorem dropWhile_length_le (p : Char → Bool) :
    ∀ l : List Char, (List.dropWhile p l).length ≤ l.length
  | [] => Nat.le_refl 0
  | c :: cs => by
    by_cases h : p c
    · simp only [List.dropWhile, h]
      exact Nat.le_succ_of_le (dropWhile_length_le p cs)
    · simp [List.dropWhile, h]

/-- Every character emitted by the sanitizer is a URI character
(kept characters are URI characters, and the dash is one too). -/
theorem replaceAux_all_uri (b : Bool) (s : List Char) :
    (replaceAux b s).all uriChar = true := by
  induction s generalizing b with
  | nil => rfl
  | cons c cs ih =>
    by_cases h : uriChar c
    · simpa [replaceAux, h] using ih false
    · have hd : uriChar '-' = true := by decide
      cases b <;> simp [replaceAux, h, hd, ih true]

/-- The sanitizer leaves a string made only of URI characters unchanged. -/
theorem replaceAux_id_of_all (b : Bool) (s : List Char)
    (h : s.all uriChar = true) : replaceAux b s = s := by
  induction s generalizing b with
  | nil => rfl
  | cons c cs ih =>
    simp only [List.all_cons, Bool.and_eq_true] at h
    simp [replaceAux, h.1, ih false h.2]

/-- With the in-run flag set, `replaceAux` first skips the current run of
non-URI characters. -/
theorem replaceAux_true_dropWhile (s : List Char) :
    replaceAux true s = replaceAux false (s.dropWhile (fun x => !uriChar x)) := by
  induction s with
  | nil => rfl
  | cons c cs ih =>
    by_cases h : uriChar c
    · simp [replaceAux, List.dropWhile, h]
    · simp only [replaceAux, h, if_neg]
      simp only [List.dropWhile, h]
      simpa [h] using ih

/-- The accumulator formulation of the sanitizer agrees with the direct
run-collapsing formulation. -/
theorem replaceNonURIChars_eq_collapseRuns :
    ∀ s : List Char, replaceNonURIChars s = collapseRuns s
  | [] => by rw [collapseRuns]; rfl
  | c :: cs => by
    by_cases h : uriChar c
    · rw [collapseRuns]
      simp only [replaceNonURIChars, replaceAux, h, if_pos]
      exact congrArg (c :: ·) (replaceNonURIChars_eq_collapseRuns cs)
    · rw [collapseRuns]
      simp only [replaceNonURIChars, replaceAux, h, if_neg, Bool.false_eq_true,
        not_false_eq_true]
      rw [replaceAux_true_dropWhile]
      exact congrArg ('-' :: ·)
        (replaceNonURIChars_eq_collapseRuns (cs.dropWhile (fun x => !uriChar x)))
termination_by s => s.length
decreasing_by
  · simp only [List.length_cons]
    exact Nat.lt_succ_self _
  · simp only [List.length_cons]
    exact Nat.lt_succ_of_le (dropWhile_length_le _ cs)

/-- A name accepted by `validateName` consists only of valid name
characters. -/
theorem validateName_ok_all (name : List Char)
    (h : validateName name = .ok true) : name.all validNameChar = true := by
  unfold validateName at h
  split at h
  · cases h
  · split at h
    · rename_i hcond
      exact (Bool.and_eq_true _ _).mp hcond |>.2
    · cases h

/-- A name accepted by `validateName` is nonempty and at most 128
characters long. -/
theorem validateName_ok_length (name : List Char)
    (h : validateName name = .ok true) :
    1 ≤ name.length ∧ name.length ≤ 128 := by
  unfold validateName at h
  split at h
  · cases h
  · rename_i hlen
    split at h
    · rename_i hcond
      have hne := (Bool.and_eq_true _ _).mp hcond |>.1
      refine ⟨?_, by omega⟩
      cases name with
      | nil => simp at hne
      | cons c cs => simp
    · cases h

/-- A valid name character other than the underscore is a URI character. -/
theorem validNameChar_uri {c : Char} (h : validNameChar c = true)
    (hne : c ≠ '_') : uriChar c = true := by
  simp only [validNameChar, Bool.or_eq_true, beq_iff_eq] at h
  simp only [uriChar, Bool.or_eq_true, beq_iff_eq]
  rcases h with ((ha | hd) | hdash) | hus
  · exact Or.inl (Or.inl (Or.inl ha))
  · exact Or.inl (Or.inl (Or.inr hd))
  · exact Or.inl (Or.inr hdash)
  · exact absurd hus hne

/-- A valid name character is never a dot. -/
theorem validNameChar_ne_dot {c : Char} (h : validNameChar c = true) :
    c ≠ '.' := by
  rintro rfl
  exact absurd h (by decide)

/-- Splitting at the first dot is unambiguous: two decompositions
`left ++ '.' :: right` with dot-free left parts coincide. -/
theorem append_cons_dot_inj (l1 : List Char) :
    ∀ l2 r1 r2 : List Char, '.' ∉ l1 → '.' ∉ l2 →
      l1 ++ '.' :: r1 = l2 ++ '.' :: r2 → l1 = l2 ∧ r1 = r2 := by
  induction l1 with
  | nil =>
    intro l2 r1 r2 _ h2 h
    cases l2 with
    | nil => simpa using h
    | cons c l2 =>
      simp only [List.nil_append, List.cons_append, List.cons.injEq] at h
      exact absurd (by rw [h.1]; exact List.mem_cons_self c l2) h2
  | cons a l1 ih =>
    intro l2 r1 r2 h1 h2 h
    cases l2 with
    | nil =>
      simp only [List.cons_append, List.nil_append, List.cons.injEq] at h
      exact absurd (by rw [← h.1]; exact List.mem_cons_self a l1) h1
    | cons b l2 =>
      simp only [List.cons_append, List.cons.injEq] at h
      obtain ⟨rfl, h⟩ := h
      have hrec := ih l2 r1 r2
        (fun hm => h1 (List.mem_cons_of_mem _ hm))
        (fun hm => h2 (List.mem_cons_of_mem _ hm)) h
      exact ⟨by rw [hrec.1], hrec.2⟩

/-- A name accepted by `validateName` that contains no underscore is fixed
by the sanitizer and contains no dot. -/
theorem valid_no_underscore_fixed (name : List Char)
    (h : validateName name = .ok true) (hu : '_' ∉ name) :
    replaceNonURIChars name = name ∧ '.' ∉ name := by
  have hall := validateName_ok_all name h
  rw [List.all_eq_true] at hall
  constructor
  · refine replaceAux_id_of_all false name ?_
    rw [List.all_eq_true]
    intro c hc
    exact validNameChar_uri (hall c hc) (fun he => hu (he ▸ hc))
  · intro hm
    exact validNameChar_ne_dot (hall _ hm) rfl

/-- C3: `validateName` accepts exactly the strings of 1 to 128 characters
drawn from `[A-Za-z0-9_-]`; `"valid-name_1"` is accepted, a 200-character
name is rejected with the max-length error, and `"bad name!"` is rejected
with the invalid-characters error. -/
theorem validateName_spec :
    (∀ name : List Char,
      validateName name = .ok true ↔
        (1 ≤ name.length ∧ name.length ≤ 128
          ∧ name.all validNameChar = true))
    ∧ validateName "valid-name_1".toList = .ok true
    ∧ validateName (List.replicate 200 'a') = .error .exceedsMaxLength
    ∧ validateName "bad name!".toList = .error .containsInvalidCharacters := by
  refine ⟨?_, by rfl, ?_, by rfl⟩
  case refine_2 =>
    unfold validateName
    rw [if_pos (by rw [List.length_replicate]; omega)]
  intro name
  constructor
  · intro h
    obtain ⟨h1, h2⟩ := validateName_ok_length name h
    exact ⟨h1, h2, validateName_ok_all name h⟩
  · rintro ⟨h1, h2, h3⟩
    unfold validateName
    rw [if_neg (by omega)]
    rw [if_pos]
    rw [Bool.and_eq_true, h3]
    refine ⟨?_, rfl⟩
    cases name with
    | nil => simp at h1
    | cons c cs => rfl

/-- Witness for C3: the characterization applied at the concrete name
"abc". -/
theorem validateName_spec_witness :
    validateName "abc".toList = .ok true :=
  (validateName_spec.1 "abc".toList).mpr ⟨by decide, by decide, by decide⟩

/-- C10: the length check of `validateName` has precedence: every name
longer than 128 characters is rejected with the max-length error, whatever
its characters. -/
theorem validateName_length_precedence (name : List Char)
    (h : 128 < name.length) :
    validateName name = .error .exceedsMaxLength := by
  unfold validateName
  rw [if_pos h]

/-- Witness for C10 at a 129-character name made of invalid characters. -/
theorem validateName_length_precedence_witness :
    validateName (List.replicate 129 '!') = .error .exceedsMaxLength :=
  validateName_length_precedence (List.replicate 129 '!') (by simp)

/-- C9: the sanitizer is idempotent, and hence the name part of an
already-sanitized name passed to `fqdn` is unchanged. -/
theorem replaceNonURIChars_idempotent :
    (∀ s : List Char,
      replaceNonURIChars (replaceNonURIChars s) = replaceNonURIChars s)
    ∧ ∀ s tn : List Char,
        fqdn (replaceNonURIChars s) tn
          = replaceNonURIChars s ++ '.' :: tn ++ ".shipyard.run".toList := by
  have key : ∀ s : List Char,
      replaceNonURIChars (replaceNonURIChars s) = replaceNonURIChars s :=
    fun s => replaceAux_id_of_all false _ (replaceAux_all_uri false s)
  exact ⟨key, fun s tn => by unfold fqdn; rw [key s]⟩

/-- C4 counterexample: on `"a__b"` the code collapses the run of two
underscores to a single dash, while per-character replacement as the claim
reads would give two dashes. -/
theorem fqdn_not_perChar :
    fqdn "a__b".toList "container".toList
      ≠ replacePerChar "a__b".toList ++ '.' :: "container".toList
          ++ ".shipyard.run".toList := by
  decide

/-- C4 (amended): the handle equals the name with each maximal run of
characters outside `[A-Za-z0-9.-]` replaced by a single dash, concatenated
with a dot, the type and the fixed suffix ".shipyard.run". -/
theorem fqdn_collapses_runs (name tn : List Char) :
    fqdn name tn = collapseRuns name ++ '.' :: tn ++ ".shipyard.run".toList := by
  unfold fqdn
  rw [replaceNonURIChars_eq_collapseRuns]

/-- C1 counterexample: `"a_b"` and `"a-b"` are distinct names accepted by
`validateName`, yet they produce the same handle for the same type. -/
theorem fqdn_collision :
    validateName "a_b".toList = .ok true
    ∧ validateName "a-b".toList = .ok true
    ∧ "a_b".toList ≠ "a-b".toList
    ∧ fqdn "a_b".toList "container".toList
        = fqdn "a-b".toList "container".toList :=
  ⟨by rfl, by rfl, by decide, by rfl⟩

/-- C1 (amended): on valid names that contain no underscore (the only
valid-name character altered by sanitization), distinct `(name, type)`
pairs always produce distinct handles. -/
theorem fqdn_injective_on_sanitized (n1 t1 n2 t2 : List Char)
    (h1 : validateName n1 = .ok true) (h2 : validateName n2 = .ok true)
    (hu1 : '_' ∉ n1) (hu2 : '_' ∉ n2)
    (hne : (n1, t1) ≠ (n2, t2)) :
    fqdn n1 t1 ≠ fqdn n2 t2 := by
  obtain ⟨e1, d1⟩ := valid_no_underscore_fixed n1 h1 hu1
  obtain ⟨e2, d2⟩ := valid_no_underscore_fixed n2 h2 hu2
  intro heq
  unfold fqdn at heq
  rw [e1, e2] at heq
  simp only [List.append_assoc, List.cons_append] at heq
  obtain ⟨hn, ht⟩ := append_cons_dot_inj n1 n2 _ _ d1 d2 heq
  exact hne (by rw [hn, List.append_cancel_right ht])

/-- Witness for the amended C1 at two concrete distinct names. -/
theorem fqdn_injective_on_sanitized_witness :
    fqdn "aa".toList "container".toList ≠ fqdn "ab".toList "container".toList :=
  fqdn_injective_on_sanitized "aa".toList "container".toList
    "ab".toList "container".toList
    (by rfl) (by rfl) (by decide) (by decide) (by decide)

/-- C2 counterexample: a disabled image_cache resource still contributes
its handle to the output of `getLoggable` — the image_cache branch of the
type switch has no disabled check. -/
theorem disabled_imageCache_listed :
    (ResourceInfo.mk "docker-cache".toList .imageCache true 0).disabled = true
    ∧ getLoggable [ResourceInfo.mk "docker-cache".toList .imageCache true 0]
        = ["docker-cache.image_cache.shipyard.run".toList] :=
  ⟨rfl, rfl⟩

/-- C2 (amended): a disabled resource of any type other than image_cache
contributes no handles, alone or inside any resource list. -/
theorem disabled_not_loggable (r : ResourceInfo) (hd : r.disabled = true)
    (ht : r.rtype ≠ ResourceType.imageCache) :
    loggableOf r = [] ∧ getLoggable [r] = [] := by
  obtain ⟨n, ty, d, k⟩ := r
  simp only at hd ht
  subst hd
  have hz : loggableOf ⟨n, ty, true, k⟩ = [] := by
    cases ty <;> first
      | exact absurd rfl ht
      | simp [loggableOf]
  exact ⟨hz, by simp [getLoggable, hz]⟩

/-- Witness for the amended C2 at a concrete disabled container. -/
theorem disabled_not_loggable_witness :
    loggableOf ⟨"web".toList, .container, true, 0⟩ = []
    ∧ getLoggable [⟨"web".toList, .container, true, 0⟩] = [] :=
  disabled_not_loggable ⟨"web".toList, .container, true, 0⟩ rfl (by decide)

/-- C5 counterexample: the handle of a k8s_cluster resource with the valid
name "web" contains an underscore, a character outside `[A-Za-z0-9.-]`. -/
theorem fqdn_contains_underscore :
    validateName "web".toList = .ok true
    ∧ (fqdn "web".toList (typeName .k8sCluster)).all uriChar = false :=
  ⟨rfl, rfl⟩

/-- C5 (amended): for every valid resource name and every type of the
enumeration, the handle consists only of characters in `[A-Za-z0-9._-]`
(the underscore comes from the type names; the sanitized name part itself
uses only `[A-Za-z0-9.-]`). -/
theorem fqdn_chars_dnsLike (name : List Char) (t : ResourceType)
    (h : validateName name = .ok true) :
    (fqdn name (typeName t)).all dnsLikeChar = true := by
  have h1 : (replaceNonURIChars name).all dnsLikeChar = true := by
    have hu := replaceAux_all_uri false name
    rw [List.all_eq_true] at hu ⊢
    intro c hc
    simp [dnsLikeChar, hu c hc]
  have h2 : (typeName t).all dnsLikeChar = true := by
    cases t <;> rfl
  have h3 : (".shipyard.run".toList).all dnsLikeChar = true := by rfl
  have h4 : dnsLikeChar '.' = true := by decide
  unfold fqdn
  simp [List.all_append, List.all_cons, h1, h2, h3, h4]
  decide

/-- Witness for the amended C5 at the name "web" and the k8s_cluster
type. -/
theorem fqdn_chars_dnsLike_witness :
    (fqdn "web".toList (typeName .k8sCluster)).all dnsLikeChar = true :=
  fqdn_chars_dnsLike "web".toList .k8sCluster (by rfl)

/-- C6: a non-disabled nomad_cluster with clientNodes = N contributes
1 + N handles, the server handle first, then one handle per client index
1..N in ascending order with the index-dot-client prefix; with N = 3 that
is 4 handles. -/
theorem nomadCluster_instance_handles (name : List Char) (N : Nat) :
    loggableOf ⟨name, .nomadCluster, false, N⟩
      = ("server.".toList ++ fqdn name (typeName .nomadCluster)) ::
          (List.range' 1 N).map (fun i =>
            Nat.toDigits 10 i ++ ".client.".toList
              ++ fqdn name (typeName .nomadCluster))
    ∧ (loggableOf ⟨name, .nomadCluster, false, N⟩).length = 1 + N
    ∧ (loggableOf ⟨name, .nomadCluster, false, 3⟩).length = 4 := by
  have key : ∀ M : Nat, loggableOf ⟨name, .nomadCluster, false, M⟩
      = ("server.".toList ++ fqdn name (typeName .nomadCluster)) ::
          (List.range' 1 M).map (fun i =>
            Nat.toDigits 10 i ++ ".client.".toList
              ++ fqdn name (typeName .nomadCluster)) := by
    intro M
    have hM : loggableOf ⟨name, .nomadCluster, false, M⟩
        = ("server.".toList ++ fqdn name (typeName .nomadCluster)) ::
            (List.range M).map (fun n =>
              Nat.toDigits 10 (n + 1) ++ ".client.".toList
                ++ fqdn name (typeName .nomadCluster)) := rfl
    rw [hM, List.range'_eq_map_range, List.map_map]
    refine congrArg (List.cons _) (List.map_congr_left ?_)
    intro n _
    simp only [Function.comp]
    rw [Nat.add_comm]
  refine ⟨key N, ?_, ?_⟩
  · rw [key N]
    simp
    omega
  · rw [key 3]
    simp

/-- C7: a resource constructed from a declaration enters the graph with
status PendingCreation when not disabled and Disabled when declared
disabled, with zero provider invocations in either case. -/
theorem newResource_initial_status (name : List Char) (ty : ResourceType)
    (d : Bool) (k : Nat) :
    (newResource name ty false k).status = Status.pendingCreation
    ∧ (newResource name ty true k).status = Status.disabled
    ∧ (newResource name ty d k).providerCalls = 0 :=
  ⟨rfl, rfl, rfl⟩

/-- C8: only the eight types of the switch produce handles; network and
exec_local resources contribute nothing whatever their disabled flag; a
non-disabled k8s_cluster contributes exactly its single server handle,
with no client expansion. -/
theorem loggable_type_restriction (r : ResourceInfo) :
    (loggableOf r ≠ [] →
      r.rtype ∈ [ResourceType.container, ResourceType.sidecar,
        ResourceType.containerIngress, ResourceType.k8sCluster,
        ResourceType.k8sIngress, ResourceType.nomadCluster,
        ResourceType.nomadIngress, ResourceType.imageCache])
    ∧ (r.rtype = ResourceType.network ∨ r.rtype = ResourceType.execLocal →
        loggableOf r = [])
    ∧ (r.rtype = ResourceType.k8sCluster → r.disabled = false →
        loggableOf r
          = ["server.".toList ++ fqdn r.name (typeName .k8sCluster)]) := by
  obtain ⟨n, ty, d, k⟩ := r
  refine ⟨?_, ?_, ?_⟩
  · intro h
    cases ty <;> simp_all [loggableOf]
  · rintro (h | h) <;> simp_all [loggableOf]
  · intro h hd
    simp_all [loggableOf]

/-- Witness for C8 at a concrete non-disabled k8s_cluster. -/
theorem loggable_type_restriction_witness :
    loggableOf ⟨"dc1".toList, .k8sCluster, false, 0⟩
      = ["server.".toList ++ fqdn "dc1".toList (typeName .k8sCluster)] :=
  (loggable_type_restriction ⟨"dc1".toList, .k8sCluster, false, 0⟩).2.2 rfl rfl

end Shipyard
